import Mathlib

/-!
# Verification of the hybrid movie-recommendation notebook

Shallow embedding of the logical core of `movie_recommendation.ipynb`:
the label encoders, the hybrid ranker `get_hybrid_recommendations`, the
evaluator `evaluate_recommendations`, and the TF-IDF / cosine-similarity
construction of `content_sim_matrix`.

Conventions:
* pandas data frames become Lean lists of records, positional row index =
  pandas default `RangeIndex` label;
* float arithmetic is modelled exactly over `ℚ` (ranker, evaluator) and
  over `ℝ` (similarity matrix, which involves square roots and logarithms);
* Python exceptions caught by the ranker's `try/except` become an
  `Except` value in `hybridBody`; the surrounding handler is the match in
  `get_hybrid_recommendations`;
* the runtime artifacts that are downloaded or trained when the notebook
  runs (the three CSV tables, the trained `cf_model`, the float values of
  the global `content_sim_matrix`) are parameters, collected in `Ctx`.
-/

namespace MovieRec

/-- A row of `movies.csv` / `movies_df` (before the derived
`content_features` column). -/
structure Movie where
  movieId : ℕ
  title : String
  genres : String
deriving DecidableEq

/-- A row of `ratings.csv` / `ratings_df`. -/
structure Rating where
  userId : ℕ
  movieId : ℕ
  rating : ℚ
deriving DecidableEq

/-! ## Label encoders (cell: `LabelEncoder`, `fit_transform`)

`sklearn.LabelEncoder.fit_transform` maps each raw identifier to its rank
in the sorted list of distinct identifiers (`classes_`). -/

/-- `classes_` of a fitted `LabelEncoder`: the distinct values, sorted
ascending (as `np.unique` sorts). -/
def labelClasses (vals : List ℕ) : List ℕ :=
  vals.dedup.insertionSort (· ≤ ·)

/-- The encoded value: the position of `v` in `classes_`. -/
def labelEncode (vals : List ℕ) (v : ℕ) : ℕ :=
  (labelClasses vals).indexOf v

/-- `movie_encoder.classes_`: sorted distinct `movieId`s of the rating set. -/
def movie_classes (ratings : List Rating) : List ℕ :=
  labelClasses (ratings.map Rating.movieId)

/-- `user_encoder.classes_`. -/
def user_classes (ratings : List Rating) : List ℕ :=
  labelClasses (ratings.map Rating.userId)

/-- `num_movies = len(np.unique(X_movies))`.  `X_movies` is the encoded
movie column; since `fit_transform` is a bijection between the distinct
raw ids and their ranks, the number of distinct encoded values equals the
number of distinct raw `movieId`s. -/
def num_movies (ratings : List Rating) : ℕ :=
  ((ratings.map Rating.movieId).dedup).length

/-- `X_users[0]`, the "sample user" of the ranker: the encoded user id of
the first rating row (`0` is never used when the rating set is empty,
because then `num_movies = 0` and no prediction is requested). -/
def sample_user_id (ratings : List Rating) : ℕ :=
  match ratings with
  | [] => 0
  | r :: _ => labelEncode (ratings.map Rating.userId) r.userId

/-- The runtime context of the notebook: the loaded tables plus the two
run-dependent numeric artifacts (the float entries of the global
`content_sim_matrix`, and the trained `cf_model.predict` viewed as a
function of an encoded user id and an encoded movie id). -/
structure Ctx where
  movies : List Movie
  ratings : List Rating
  contentSim : ℕ → ℕ → ℚ
  predict : ℕ → ℕ → ℚ

/-! ## The hybrid ranker (`get_hybrid_recommendations`) -/

/-- The loop `for movie in input_movies: idx = movies_df[movies_df['title']
== movie].index; ...` — resolve every seed title to the first matching
positional row index; `none` when some title is absent (the code prints a
warning and returns `[]`). -/
def resolveSeeds (movies : List Movie) : List String → Option (List ℕ)
  | [] => some []
  | t :: ts =>
    match movies.findIdx? (fun m => m.title = t) with
    | none => none
    | some i => (resolveSeeds movies ts).map (fun is => i :: is)

/-- `content_scores = np.mean([content_sim_matrix[idx] for idx in
input_movie_indices], axis=0)`, evaluated at column `j`. -/
def content_scores (ctx : Ctx) (idxs : List ℕ) (j : ℕ) : ℚ :=
  ((idxs.map (fun i => ctx.contentSim i j)).sum) / (idxs.length : ℚ)

/-- `hybrid_scores = 0.5 * content_scores + 0.5 * cf_ratings`, evaluated at
candidate position `j` (`cf_ratings[j]` is the model's prediction for the
sample user and *encoded* movie id `j`). -/
def hybrid_scores (ctx : Ctx) (idxs : List ℕ) (j : ℕ) : ℚ :=
  (1 / 2 : ℚ) * content_scores ctx idxs j
    + (1 / 2 : ℚ) * ctx.predict (sample_user_id ctx.ratings) j

/-- Ascending comparison used to model `np.argsort` on the score vector:
by score, ties by position (a stable ascending sort). -/
def ascRel (score : ℕ → ℚ) (i j : ℕ) : Prop :=
  score i < score j ∨ (score i = score j ∧ i ≤ j)

instance (score : ℕ → ℚ) : DecidableRel (ascRel score) := fun _ _ =>
  inferInstanceAs (Decidable (_ ∨ _))

/-- `np.argsort(hybrid_scores)`: the positions `0 .. n-1` sorted by
ascending score (ties left in position order). -/
def argsort (score : ℕ → ℚ) (n : ℕ) : List ℕ :=
  (List.range n).insertionSort (ascRel score)

/-- `top_indices = np.argsort(hybrid_scores)[::-1]`. -/
def top_indices (score : ℕ → ℚ) (n : ℕ) : List ℕ :=
  (argsort score n).reverse

/-- The selection loop `for idx in top_indices: rec_movie_title =
movies_df.loc[idx, 'title']; if rec_movie_title not in input_movies and
len(recommendations) < top_n: recommendations.append(...)`.

Each appended element is kept together with the row index it came from
(the code keeps only the title; the first component is bookkeeping for
the statements below and never influences the control flow).  `none`
models the `KeyError` raised by `movies_df.loc[idx, 'title']` when `idx`
is not a valid row label; note that the loop keeps looking rows up even
after `top_n` recommendations have been collected, exactly as the source
does. -/
def pickRecs (movies : List Movie) (input_movies : List String) (top_n : ℕ) :
    List ℕ → List (ℕ × String) → Option (List (ℕ × String))
  | [], acc => some acc.reverse
  | idx :: rest, acc =>
    match movies[idx]? with
    | none => none
    | some m =>
      if m.title ∉ input_movies ∧ acc.length < top_n then
        pickRecs movies input_movies top_n rest ((idx, m.title) :: acc)
      else
        pickRecs movies input_movies top_n rest acc

/-- The body of the `try:` block of `get_hybrid_recommendations`.
`.ok` is a normal `return`, `.error` an exception reaching the `except`
handler.  The two modelled raise points are:
* `input_movies = []`: `np.mean([], axis=0)` produces a 0-d array and the
  slice `content_scores[:len(all_movie_ids)]` raises `IndexError`;
* an out-of-range row label in the selection loop (`KeyError`); this
  fires exactly when `num_movies > len(movies_df)`, the same condition
  under which the line `0.5 * content_scores + 0.5 * cf_ratings` would
  already have raised a broadcasting `ValueError`. -/
def hybridBody (ctx : Ctx) (input_movies : List String) (top_n : ℕ) :
    Except String (List String) :=
  match resolveSeeds ctx.movies input_movies with
  | none => .ok []
  | some idxs =>
    if idxs.isEmpty then
      .error "IndexError: too many indices for array"
    else
      match pickRecs ctx.movies input_movies top_n
          (top_indices (hybrid_scores ctx idxs) (num_movies ctx.ratings)) [] with
      | none => .error "KeyError: invalid row label"
      | some res => .ok (res.map Prod.snd)

/-- `get_hybrid_recommendations(input_movies, top_n)`: the `try/except`
wrapper — any exception from the body is caught, a message is printed,
and `[]` is returned. -/
def get_hybrid_recommendations (ctx : Ctx) (input_movies : List String)
    (top_n : ℕ) : List String :=
  match hybridBody ctx input_movies top_n with
  | .ok res => res
  | .error _ => []

/-! ## The evaluator (`evaluate_recommendations`) -/

/-- `movies_df[movies_df['title'] == t]['genres'].values[0].split('|')`:
the pipe-separated genre tags of the first row titled `t`; `none` models
the `IndexError` on `.values[0]` when no row matches. -/
def genreLookup (movies : List Movie) (t : String) : Option (List String) :=
  (movies.find? (fun m => m.title = t)).map (fun m => m.genres.splitOn "|")

/-- The `input_genres` set-building loop: the union of the seed movies'
genre tags (membership in the concatenation is membership in the union);
`none` when some seed title is absent. -/
def seedGenres (movies : List Movie) : List String → Option (List String)
  | [] => some []
  | s :: ss =>
    match genreLookup movies s with
    | none => none
    | some g => (seedGenres movies ss).map (fun acc => g ++ acc)

/-- `genre_matches = sum(any(genre in input_genres for genre in ...) for
rec in recommendations)`; `none` when some recommended title is absent
from the table. -/
def genreMatches (movies : List Movie) (gs : List String) :
    List String → Option ℕ
  | [] => some 0
  | r :: rs =>
    match genreLookup movies r with
    | none => none
    | some rg =>
      (genreMatches movies gs rs).map
        (fun k => (if rg.any (fun g => g ∈ gs) then 1 else 0) + k)

/-- `evaluate_recommendations(test_movies, top_n)`.  The function has no
exception handler of its own, so a failing lookup is an uncaught
exception (`.error`).  On success it returns the metrics dict
`(recommendations, genre_match_rate, total_recommendations)`. -/
def evaluate_recommendations (ctx : Ctx) (test_movies : List String)
    (top_n : ℕ) : Except String (List String × ℚ × ℕ) :=
  let recommendations := get_hybrid_recommendations ctx test_movies top_n
  match seedGenres ctx.movies test_movies with
  | none => .error "IndexError: seed title not found"
  | some gs =>
    match genreMatches ctx.movies gs recommendations with
    | none => .error "IndexError: recommended title not found"
    | some k =>
      .ok (recommendations,
        if recommendations.isEmpty then 0
        else ((k : ℚ) / (recommendations.length : ℚ)) * 100,
        recommendations.length)

/-- `any(genre in input_genres for genre in <genres of first row titled t>)`
— does recommended title `t` share a genre tag with the seed-genre union?
(The summand of `genre_matches`, as a standalone predicate.) -/
def sharesSeedGenre (movies : List Movie) (gs : List String) (t : String) : Bool :=
  match genreLookup movies t with
  | some rg => rg.any (fun g => g ∈ gs)
  | none => false

/-! ## The content-similarity matrix (`TfidfVectorizer` + `cosine_similarity`)

`tfidf = TfidfVectorizer(stop_words='english')` with scikit-learn's
defaults: tokens are maximal runs of word characters of length ≥ 2 of the
lowercased text (`token_pattern r"(?u)\b\w\w+\b"`), the fixed English
stop-word list is removed, term frequency is the raw count, the inverse
document frequency is the smoothed `ln((1+n)/(1+df)) + 1`, and every row
is L2-normalised (`norm='l2'`; an all-zero row is left zero, as
`sklearn.preprocessing.normalize` replaces a zero norm by 1).
`cosine_similarity(X)` is `normalize(X) @ normalize(X).T`. -/

/-- scikit-learn's frozen `ENGLISH_STOP_WORDS` list. -/
def englishStopWords : List String :=
  ["a", "about", "above", "across", "after", "afterwards", "again", "against",
   "all", "almost", "alone", "along", "already", "also", "although", "always",
   "am", "among", "amongst", "amoungst", "amount", "an", "and", "another",
   "any", "anyhow", "anyone", "anything", "anyway", "anywhere", "are",
   "around", "as", "at", "back", "be", "became", "because", "become",
   "becomes", "becoming", "been", "before", "beforehand", "behind", "being",
   "below", "beside", "besides", "between", "beyond", "bill", "both",
   "bottom", "but", "by", "call", "can", "cannot", "cant", "co", "con",
   "could", "couldnt", "cry", "de", "describe", "detail", "do", "done",
   "down", "due", "during", "each", "eg", "eight", "either", "eleven",
   "else", "elsewhere", "empty", "enough", "etc", "even", "ever", "every",
   "everyone", "everything", "everywhere", "except", "few", "fifteen",
   "fifty", "fill", "find", "fire", "first", "five", "for", "former",
   "formerly", "forty", "found", "four", "from", "front", "full", "further",
   "get", "give", "go", "had", "has", "hasnt", "have", "he", "hence", "her",
   "here", "hereafter", "hereby", "herein", "hereupon", "hers", "herself",
   "him", "himself", "his", "how", "however", "hundred", "i", "ie", "if",
   "in", "inc", "indeed", "interest", "into", "is", "it", "its", "itself",
   "keep", "last", "latter", "latterly", "least", "less", "ltd", "made",
   "many", "may", "me", "meanwhile", "might", "mill", "mine", "more",
   "moreover", "most", "mostly", "move", "much", "must", "my", "myself",
   "name", "namely", "neither", "never", "nevertheless", "next", "nine",
   "no", "nobody", "none", "noone", "nor", "not", "nothing", "now",
   "nowhere", "of", "off", "often", "on", "once", "one", "only", "onto",
   "or", "other", "others", "otherwise", "our", "ours", "ourselves", "out",
   "over", "own", "part", "per", "perhaps", "please", "put", "rather", "re",
   "same", "see", "seem", "seemed", "seeming", "seems", "serious", "several",
   "she", "should", "show", "side", "since", "sincere", "six", "sixty", "so",
   "some", "somehow", "someone", "something", "sometime", "sometimes",
   "somewhere", "still", "such", "system", "take", "ten", "than", "that",
   "the", "their", "them", "themselves", "then", "thence", "there",
   "thereafter", "thereby", "therefore", "therein", "thereupon", "these",
   "they", "thick", "thin", "third", "this", "those", "though", "three",
   "through", "throughout", "thru", "thus", "to", "together", "too", "top",
   "toward", "towards", "twelve", "twenty", "two", "un", "under", "until",
   "up", "upon", "us", "very", "via", "was", "we", "well", "were", "what",
   "whatever", "when", "whence", "whenever", "where", "whereafter",
   "whereas", "whereby", "wherein", "whereupon", "wherever", "whether",
   "which", "while", "whither", "who", "whoever", "whole", "whom", "whose",
   "why", "will", "with", "within", "without", "would", "yet", "you",
   "your", "yours", "yourself", "yourselves"]

/-- A word character for the default token pattern `\w`. -/
def isWordChar (c : Char) : Bool := c.isAlphanum || c = '_'

/-- The maximal runs of word characters of a character list (the matches
of `\w\w+` are these runs of length ≥ 2). -/
def tokenRuns : List Char → List (List Char)
  | [] => []
  | c :: cs =>
    if isWordChar c then
      match tokenRuns cs, cs with
      | r :: rs, c2 :: _ =>
        if isWordChar c2 then (c :: r) :: rs else [c] :: r :: rs
      | _, _ => [[c]]
    else
      tokenRuns cs

/-- The analyzer of `TfidfVectorizer(stop_words='english')`: lowercase,
extract maximal word-character runs of length at least 2 (the token
pattern `\b\w\w+\b`), drop stop words. -/
def tokenize (s : String) : List String :=
  (((tokenRuns (s.data.map Char.toLower)).map String.mk).filter
      (fun t => 2 ≤ t.length)).filter (fun t => t ∉ englishStopWords)

/-- `movies_df['content_features'] = movies_df['genres'] + ' ' +
movies_df['title']`. -/
def content_features (m : Movie) : String := m.genres ++ " " ++ m.title

/-- The token list of one movie's text blob. -/
def movieTokens (m : Movie) : List String := tokenize (content_features m)

/-- The fitted vocabulary: every distinct token of the corpus (the sum
below ranges over it; its order is irrelevant to the sums). -/
def vocab (movies : List Movie) : List String :=
  ((movies.map movieTokens).flatten).dedup

/-- Document frequency of a term. -/
def docFreq (movies : List Movie) (t : String) : ℕ :=
  (movies.filter (fun m => t ∈ movieTokens m)).length

/-- Smoothed inverse document frequency
`idf(t) = ln((1 + n)/(1 + df(t))) + 1` (`smooth_idf=True`). -/
noncomputable def idf (movies : List Movie) (t : String) : ℝ :=
  Real.log ((1 + movies.length : ℝ) / (1 + docFreq movies t : ℝ)) + 1

/-- Raw term count of term `t` in document (row) `i`. -/
def tfCount (movies : List Movie) (i : ℕ) (t : String) : ℕ :=
  match movies[i]? with
  | some m => (movieTokens m).count t
  | none => 0

/-- The unnormalised TF-IDF weight `tf * idf`. -/
noncomputable def tfidfRaw (movies : List Movie) (i : ℕ) (t : String) : ℝ :=
  (tfCount movies i t : ℝ) * idf movies t

/-- Inner product of two unnormalised TF-IDF rows over the vocabulary. -/
noncomputable def rawDot (movies : List Movie) (i j : ℕ) : ℝ :=
  ((vocab movies).map (fun t => tfidfRaw movies i t * tfidfRaw movies j t)).sum

/-- `tfidf_matrix = tfidf.fit_transform(movies_df['content_features'])`:
the L2-normalised TF-IDF row (in Lean, division by a zero norm yields 0,
which matches scikit-learn's convention of leaving all-zero rows zero). -/
noncomputable def tfidf_matrix (movies : List Movie) (i : ℕ) (t : String) : ℝ :=
  tfidfRaw movies i t / Real.sqrt (rawDot movies i i)

/-- Inner product of two rows of `tfidf_matrix`. -/
noncomputable def simDot (movies : List Movie) (i j : ℕ) : ℝ :=
  ((vocab movies).map
    (fun t => tfidf_matrix movies i t * tfidf_matrix movies j t)).sum

/-- `content_sim_matrix = cosine_similarity(tfidf_matrix)`: entry `(i, j)`
is the inner product of the re-normalised rows `i` and `j` (again, a zero
denominator yields 0, matching scikit-learn's zero-row convention).  This
is the matrix the notebook's cell produces when `fit_transform` succeeds;
the error path of that cell is `content_sim_cell` below. -/
noncomputable def content_sim_matrix (movies : List Movie) (i j : ℕ) : ℝ :=
  simDot movies i j /
    (Real.sqrt (simDot movies i i) * Real.sqrt (simDot movies j j))

/-- `tfidf.fit_transform(movies_df['content_features'])` as run by the
cell: scikit-learn raises `ValueError: empty vocabulary` when no document
contributes a token (all blobs are stop words or sub-2-character runs);
otherwise it returns the L2-normalised TF-IDF matrix.  A merely all-zero
*row* in a non-empty vocabulary does not raise. -/
noncomputable def tfidf_fit_transform (movies : List Movie) :
    Except String (ℕ → String → ℝ) :=
  if vocab movies = [] then .error "ValueError: empty vocabulary"
  else .ok (tfidf_matrix movies)

/-- The whole cell `tfidf_matrix = tfidf.fit_transform(...);
content_sim_matrix = cosine_similarity(tfidf_matrix)`: the similarity
matrix exists only when `fit_transform` did not raise. -/
noncomputable def content_sim_cell (movies : List Movie) :
    Except String (ℕ → ℕ → ℝ) :=
  match tfidf_fit_transform movies with
  | .error e => .error e
  | .ok _ => .ok (content_sim_matrix movies)

/-! ## Concrete contexts used in the closed statements below

These model possible loaded data sets: small tables of the same shape as
the runtime CSVs, with explicitly chosen similarity/prediction values. -/

/-- Movie table A: rows `0,1,2` are movieIds `1,2,3`; movieId `2` is
unrated below, so table order and encoded order disagree from row 1 on. -/
def exMovies1 : List Movie := [⟨1, "A", "X"⟩, ⟨2, "B", "X"⟩, ⟨3, "C", "X"⟩]

/-- Rating set A: one user rated movieIds `1` and `3` (movieId `2` is
unrated), so `movie_encoder.classes_ = [1, 3]` and `num_movies = 2`. -/
def exRatings1 : List Rating := [⟨7, 1, 4⟩, ⟨7, 3, 5⟩]

/-- Context A: the seed movie `A` (row 0) has content similarity 1 to
itself and to `C` (row 2) and 0 to `B` (row 1); the model predicts 0 for
everything. -/
def exCtx1 : Ctx :=
  { movies := exMovies1
    ratings := exRatings1
    contentSim := fun i j =>
      if i = 0 ∧ j = 2 then 1 else if i = 0 ∧ j = 0 then 1 else 0
    predict := fun _ _ => 0 }

/-- Movie table B: three distinctly titled movies. -/
def exMovies2 : List Movie := [⟨1, "S", "X"⟩, ⟨2, "A", "X"⟩, ⟨3, "B", "X"⟩]

/-- Rating set B: all three movieIds rated, `num_movies = 3`. -/
def exRatings2 : List Rating := [⟨7, 1, 3⟩, ⟨7, 2, 3⟩, ⟨7, 3, 3⟩]

/-- Context B: all similarities and predictions are 0, so every candidate
ties at hybrid score 0. -/
def exCtx2 : Ctx :=
  { movies := exMovies2
    ratings := exRatings2
    contentSim := fun _ _ => 0
    predict := fun _ _ => 0 }

/-- Movie table C: six distinctly titled movies, "Toy Story (1995)" at
row 0. -/
def exMovies5 : List Movie :=
  [⟨1, "Toy Story (1995)", "X"⟩, ⟨2, "M1", "X"⟩, ⟨3, "M2", "X"⟩,
   ⟨4, "M3", "X"⟩, ⟨5, "M4", "X"⟩, ⟨6, "M5", "X"⟩]

/-- Rating set C: all six movieIds rated, `num_movies = 6`. -/
def exRatings5 : List Rating :=
  [⟨7, 1, 3⟩, ⟨7, 2, 3⟩, ⟨7, 3, 3⟩, ⟨7, 4, 3⟩, ⟨7, 5, 3⟩, ⟨7, 6, 3⟩]

/-- Context C. -/
def exCtx5 : Ctx :=
  { movies := exMovies5
    ratings := exRatings5
    contentSim := fun _ _ => 0
    predict := fun _ _ => 0 }

/-- A one-movie table whose text blob, `"no It"`, consists of stop words
only: its corpus has an empty vocabulary, so `fit_transform` raises. -/
def exMoviesStop : List Movie := [⟨1, "It", "no"⟩]

/-- A one-movie table with the usual kind of text blob,
`"Adventure Toy Story (1995)"`. -/
def exMoviesToy : List Movie := [⟨1, "Toy Story (1995)", "Adventure"⟩]

/-- A two-movie table mixing a tokenful blob with an all-stop-word blob
(`"no It"`): the vocabulary is non-empty, so `fit_transform` succeeds and
builds a matrix, but row 1 of the TF-IDF matrix is zero. -/
def exMoviesMixed : List Movie :=
  [⟨1, "Toy Story (1995)", "Adventure"⟩, ⟨2, "It", "no"⟩]

/-- Movie table D: six movies, "Toy Story (1995)" at row 0, and the title
`"D1"` duplicated across rows 1 and 2 (MovieLens itself carries duplicated
titles under distinct movieIds). -/
def exMoviesDup : List Movie :=
  [⟨1, "Toy Story (1995)", "X"⟩, ⟨2, "D1", "X"⟩, ⟨3, "D1", "X"⟩,
   ⟨4, "D2", "X"⟩, ⟨5, "D3", "X"⟩, ⟨6, "D4", "X"⟩]

/-- Context D: all six movieIds rated (rating set C), every hybrid score
equal. -/
def exCtxDup : Ctx :=
  { movies := exMoviesDup
    ratings := exRatings5
    contentSim := fun _ _ => 0
    predict := fun _ _ => 0 }

/-! ## Infrastructure lemmas -/

/-- Whether the selection loop would append row `i`: the row exists and its
title is not a seed title. -/
def passing (movies : List Movie) (input_movies : List String) (i : ℕ) : Bool :=
  match movies[i]? with
  | some m => decide (m.title ∉ input_movies)
  | none => false

/-- The title stored at row `i` (only used at rows that exist). -/
def rowTitle (movies : List Movie) (i : ℕ) : String :=
  ((movies[i]?).map Movie.title).getD ""

theorem pickRecs_eq_none_iff (movies : List Movie) (input : List String)
    (n : ℕ) : ∀ (L : List ℕ) (acc : List (ℕ × String)),
    pickRecs movies input n L acc = none ↔ ∃ i ∈ L, movies[i]? = none := by
  intro L
  induction L with
  | nil => intro acc; simp [pickRecs]
  | cons idx rest ih =>
    intro acc
    simp only [pickRecs]
    cases h : movies[idx]? with
    | none =>
      simp only []
      constructor
      · intro _; exact ⟨idx, List.mem_cons_self _ _, h⟩
      · intro _; trivial
    | some m =>
      simp only []
      by_cases hc : m.title ∉ input ∧ acc.length < n
      · rw [if_pos hc]
        rw [ih]
        constructor
        · rintro ⟨i, hi, hnone⟩; exact ⟨i, List.mem_cons_of_mem _ hi, hnone⟩
        · rintro ⟨i, hi, hnone⟩
          rcases List.mem_cons.mp hi with rfl | hi
          · rw [h] at hnone; cases hnone
          · exact ⟨i, hi, hnone⟩
      · rw [if_neg hc]
        rw [ih]
        constructor
        · rintro ⟨i, hi, hnone⟩; exact ⟨i, List.mem_cons_of_mem _ hi, hnone⟩
        · rintro ⟨i, hi, hnone⟩
          rcases List.mem_cons.mp hi with rfl | hi
          · rw [h] at hnone; cases hnone
          · exact ⟨i, hi, hnone⟩

theorem pickRecs_sound (movies : List Movie) (input : List String) (n : ℕ) :
    ∀ (L : List ℕ) (acc res : List (ℕ × String)),
    pickRecs movies input n L acc = some res →
    ∀ p ∈ res, p ∈ acc ∨
      (p.1 ∈ L ∧ ∃ m, movies[p.1]? = some m ∧ m.title = p.2 ∧ p.2 ∉ input) := by
  intro L
  induction L with
  | nil =>
    intro acc res h p hp
    simp only [pickRecs, Option.some.injEq] at h
    subst h
    exact Or.inl (List.mem_reverse.mp hp)
  | cons idx rest ih =>
    intro acc res h p hp
    simp only [pickRecs] at h
    cases hm : movies[idx]? with
    | none =>
      rw [hm] at h
      simp only [] at h
      exact Option.noConfusion h
    | some m =>
      rw [hm] at h
      simp only [] at h
      by_cases hc : m.title ∉ input ∧ acc.length < n
      · rw [if_pos hc] at h
        rcases ih _ _ h p hp with hacc | ⟨hL, m2, hm2, ht, hni⟩
        · rcases List.mem_cons.mp hacc with rfl | hacc
          · exact Or.inr ⟨List.mem_cons_self _ _, m, hm, rfl, hc.1⟩
          · exact Or.inl hacc
        · exact Or.inr ⟨List.mem_cons_of_mem _ hL, m2, hm2, ht, hni⟩
      · rw [if_neg hc] at h
        rcases ih _ _ h p hp with hacc | ⟨hL, m2, hm2, ht, hni⟩
        · exact Or.inl hacc
        · exact Or.inr ⟨List.mem_cons_of_mem _ hL, m2, hm2, ht, hni⟩

theorem pickRecs_length_le (movies : List Movie) (input : List String) (n : ℕ) :
    ∀ (L : List ℕ) (acc res : List (ℕ × String)),
    pickRecs movies input n L acc = some res →
    res.length ≤ max acc.length n := by
  intro L
  induction L with
  | nil =>
    intro acc res h
    simp only [pickRecs, Option.some.injEq] at h
    subst h
    simp [le_max_left]
  | cons idx rest ih =>
    intro acc res h
    simp only [pickRecs] at h
    cases hm : movies[idx]? with
    | none =>
      rw [hm] at h
      simp only [] at h
      exact Option.noConfusion h
    | some m =>
      rw [hm] at h
      simp only [] at h
      by_cases hc : m.title ∉ input ∧ acc.length < n
      · rw [if_pos hc] at h
        have h2 := ih _ _ h
        have hlen : ((idx, m.title) :: acc).length = acc.length + 1 := rfl
        rw [hlen] at h2
        have h1 : acc.length + 1 ≤ n := hc.2
        omega
      · rw [if_neg hc] at h
        exact ih _ _ h

theorem pickRecs_map_fst_sublist (movies : List Movie) (input : List String)
    (n : ℕ) : ∀ (L : List ℕ) (acc res : List (ℕ × String)),
    pickRecs movies input n L acc = some res →
    List.Sublist (res.map Prod.fst) (acc.reverse.map Prod.fst ++ L) := by
  intro L
  induction L with
  | nil =>
    intro acc res h
    simp only [pickRecs, Option.some.injEq] at h
    subst h
    simp
  | cons idx rest ih =>
    intro acc res h
    simp only [pickRecs] at h
    cases hm : movies[idx]? with
    | none =>
      rw [hm] at h
      simp only [] at h
      exact Option.noConfusion h
    | some m =>
      rw [hm] at h
      simp only [] at h
      by_cases hc : m.title ∉ input ∧ acc.length < n
      · rw [if_pos hc] at h
        have h2 := ih _ _ h
        rw [List.reverse_cons, List.map_append, List.append_assoc] at h2
        exact h2
      · rw [if_neg hc] at h
        have h2 := ih _ _ h
        exact h2.trans (List.Sublist.append_left ((List.Sublist.refl _).cons _) _)

theorem pickRecs_length_eq (movies : List Movie) (input : List String) (n : ℕ) :
    ∀ (L : List ℕ) (acc res : List (ℕ × String)),
    (∀ i ∈ L, (movies[i]?).isSome) → acc.length ≤ n →
    pickRecs movies input n L acc = some res →
    res.length = min n (acc.length + L.countP (passing movies input)) := by
  intro L
  induction L with
  | nil =>
    intro acc res _ hacc h
    simp only [pickRecs, Option.some.injEq] at h
    subst h
    simp [min_eq_right, hacc]
  | cons idx rest ih =>
    intro acc res hval hacc h
    simp only [pickRecs] at h
    cases hm : movies[idx]? with
    | none =>
      exfalso
      have h3 := hval idx (List.mem_cons_self _ _)
      rw [hm] at h3
      cases h3
    | some m =>
      rw [hm] at h
      simp only [] at h
      have hvrest : ∀ i ∈ rest, (movies[i]?).isSome :=
        fun i hi => hval i (List.mem_cons_of_mem _ hi)
      by_cases hc : m.title ∉ input ∧ acc.length < n
      · rw [if_pos hc] at h
        have hp : passing movies input idx = true := by
          simp only [passing, hm]
          exact decide_eq_true hc.1
        have h2 := ih _ _ hvrest (by simp only [List.length_cons]; exact hc.2) h
        have hlen : ((idx, m.title) :: acc).length = acc.length + 1 := rfl
        rw [hlen] at h2
        simp only [List.countP_cons, hp, eq_self_iff_true, if_true]
        omega
      · rw [if_neg hc] at h
        have h2 := ih _ _ hvrest hacc h
        rw [List.countP_cons]
        by_cases ht : m.title ∉ input
        · have hn : acc.length = n := by
            rcases Nat.lt_or_ge acc.length n with hlt | hge
            · exact absurd ⟨ht, hlt⟩ hc
            · exact le_antisymm hacc hge
          have hp : passing movies input idx = true := by
            simp only [passing, hm]
            exact decide_eq_true ht
          simp only [List.countP_cons, hp, eq_self_iff_true, if_true]
          omega
        · have hp : passing movies input idx = false := by
            simp only [passing, hm]
            exact decide_eq_false ht
          rw [hp]
          simp only [Bool.false_eq_true, if_false]
          omega

theorem ascRel_total (score : ℕ → ℚ) : ∀ i j, ascRel score i j ∨ ascRel score j i := by
  intro i j
  rcases lt_trichotomy (score i) (score j) with h | h | h
  · exact Or.inl (Or.inl h)
  · rcases le_total i j with hij | hij
    · exact Or.inl (Or.inr ⟨h, hij⟩)
    · exact Or.inr (Or.inr ⟨h.symm, hij⟩)
  · exact Or.inr (Or.inl h)

theorem ascRel_trans (score : ℕ → ℚ) : ∀ i j k,
    ascRel score i j → ascRel score j k → ascRel score i k := by
  intro i j k hij hjk
  rcases hij with h1 | ⟨h1, h1'⟩ <;> rcases hjk with h2 | ⟨h2, h2'⟩
  · exact Or.inl (h1.trans h2)
  · exact Or.inl (h2 ▸ h1)
  · exact Or.inl (h1 ▸ h2)
  · exact Or.inr ⟨h1.trans h2, h1'.trans h2'⟩

theorem argsort_sorted (score : ℕ → ℚ) (n : ℕ) :
    List.Sorted (ascRel score) (argsort score n) := by
  haveI : IsTotal ℕ (ascRel score) := ⟨ascRel_total score⟩
  haveI : IsTrans ℕ (ascRel score) := ⟨ascRel_trans score⟩
  exact List.sorted_insertionSort _ _

theorem argsort_perm (score : ℕ → ℚ) (n : ℕ) :
    (argsort score n).Perm (List.range n) :=
  List.perm_insertionSort _ _

theorem top_indices_perm (score : ℕ → ℚ) (n : ℕ) :
    (top_indices score n).Perm (List.range n) :=
  (List.reverse_perm _).trans (argsort_perm score n)

theorem top_indices_nodup (score : ℕ → ℚ) (n : ℕ) :
    (top_indices score n).Nodup :=
  ((top_indices_perm score n).symm).nodup (List.nodup_range n)

theorem mem_top_indices (score : ℕ → ℚ) (n : ℕ) (i : ℕ) :
    i ∈ top_indices score n ↔ i < n := by
  rw [(top_indices_perm score n).mem_iff, List.mem_range]

/-- The reversed argsort is strictly descending: an earlier candidate has a
strictly larger score, or an equal score and a strictly larger position. -/
theorem top_indices_pairwise (score : ℕ → ℚ) (n : ℕ) :
    (top_indices score n).Pairwise
      (fun i j => score j < score i ∨ (score j = score i ∧ j < i)) := by
  have hs : (top_indices score n).Pairwise (fun i j => ascRel score j i) := by
    rw [top_indices, List.pairwise_reverse]
    exact argsort_sorted score n
  have hne : (top_indices score n).Pairwise (fun i j => i ≠ j) :=
    top_indices_nodup score n
  refine (hs.and hne).imp ?_
  rintro a b ⟨hab, hne'⟩
  rcases hab with h | ⟨h, hle⟩
  · exact Or.inl h
  · exact Or.inr ⟨h, lt_of_le_of_ne hle (Ne.symm hne')⟩

theorem resolveSeeds_eq_none_iff (movies : List Movie) :
    ∀ seeds : List String, resolveSeeds movies seeds = none ↔
      ∃ t ∈ seeds, ∀ m ∈ movies, m.title ≠ t := by
  intro seeds
  induction seeds with
  | nil => simp [resolveSeeds]
  | cons t ts ih =>
    simp only [resolveSeeds]
    cases hf : movies.findIdx? (fun m => m.title = t) with
    | none =>
      simp only []
      constructor
      · intro _
        refine ⟨t, List.mem_cons_self _ _, ?_⟩
        intro m hm
        have := List.findIdx?_eq_none_iff.mp hf m hm
        simpa using this
      · intro _; trivial
    | some i =>
      simp only []
      constructor
      · intro h
        rcases Option.map_eq_none'.mp h with h2
        rcases ih.mp h2 with ⟨t2, ht2, hall⟩
        exact ⟨t2, List.mem_cons_of_mem _ ht2, hall⟩
      · rintro ⟨t2, ht2, hall⟩
        rcases List.mem_cons.mp ht2 with rfl | ht2
        · exfalso
          have hi := List.findIdx?_eq_some_iff_findIdx_eq.mp hf
          have hmem : i < movies.length := hi.1
          have := List.findIdx_eq hmem |>.mp hi.2
          have hti : (movies[i].title = t2) := by simpa using this.1
          exact hall movies[i] (movies.getElem_mem _) hti
        · rw [Option.map_eq_none']
          exact ih.mpr ⟨t2, ht2, hall⟩

theorem resolveSeeds_length (movies : List Movie) :
    ∀ (seeds : List String) (idxs : List ℕ),
    resolveSeeds movies seeds = some idxs → idxs.length = seeds.length := by
  intro seeds
  induction seeds with
  | nil =>
    intro idxs h
    simp only [resolveSeeds, Option.some.injEq] at h
    subst h; rfl
  | cons t ts ih =>
    intro idxs h
    simp only [resolveSeeds] at h
    cases hf : movies.findIdx? (fun m => m.title = t) with
    | none => rw [hf] at h; simp only [] at h; exact Option.noConfusion h
    | some i =>
      rw [hf] at h
      simp only [] at h
      rcases Option.map_eq_some'.mp h with ⟨is, his, rfl⟩
      simp [ih is his]

/-- Control-flow case split for the ranker: it returns `[]`, or the seeds
resolved, the selection loop succeeded, and the output is the loop's
titles. -/
theorem get_hybrid_cases (ctx : Ctx) (seeds : List String) (n : ℕ) :
    get_hybrid_recommendations ctx seeds n = [] ∨
    ∃ idxs res, resolveSeeds ctx.movies seeds = some idxs ∧
      pickRecs ctx.movies seeds n
        (top_indices (hybrid_scores ctx idxs) (num_movies ctx.ratings)) []
        = some res ∧
      get_hybrid_recommendations ctx seeds n = res.map Prod.snd := by
  unfold get_hybrid_recommendations hybridBody
  cases hr : resolveSeeds ctx.movies seeds with
  | none => exact Or.inl rfl
  | some idxs =>
    simp only []
    by_cases he : idxs.isEmpty
    · rw [if_pos he]
      exact Or.inl rfl
    · rw [if_neg he]
      cases hp : pickRecs ctx.movies seeds n
          (top_indices (hybrid_scores ctx idxs) (num_movies ctx.ratings)) [] with
      | none => exact Or.inl rfl
      | some res => exact Or.inr ⟨idxs, res, rfl, hp, rfl⟩

/-- Every emitted title is a non-seed title read off an existing movie row
whose index is a valid collaborative candidate (`< num_movies`). -/
theorem get_hybrid_mem (ctx : Ctx) (seeds : List String) (n : ℕ) :
    ∀ t ∈ get_hybrid_recommendations ctx seeds n,
      t ∉ seeds ∧ ∃ i, i < num_movies ctx.ratings ∧
        ∃ m, ctx.movies[i]? = some m ∧ m.title = t := by
  intro t ht
  rcases get_hybrid_cases ctx seeds n with h | ⟨idxs, res, hr, hp, hout⟩
  · rw [h] at ht; cases ht
  · rw [hout] at ht
    rcases List.mem_map.mp ht with ⟨p, hpres, rfl⟩
    rcases pickRecs_sound _ _ _ _ _ _ hp p hpres with hacc | ⟨hL, m, hm, htt, hni⟩
    · cases hacc
    · refine ⟨hni, p.1, ?_, m, hm, htt⟩
      exact (mem_top_indices _ _ _).mp hL

theorem rowTitle_eq (movies : List Movie) (i : ℕ) (m : Movie)
    (h : movies[i]? = some m) : rowTitle movies i = m.title := by
  simp [rowTitle, h]

/-- The emitted titles are the stored titles of the picked rows. -/
theorem pickRecs_snd_eq_rowTitle (movies : List Movie) (input : List String)
    (n : ℕ) (L : List ℕ) (res : List (ℕ × String))
    (h : pickRecs movies input n L [] = some res) :
    res.map Prod.snd = (res.map Prod.fst).map (rowTitle movies) := by
  rw [List.map_map]
  apply List.map_congr_left
  intro p hp
  rcases pickRecs_sound _ _ _ _ _ _ h p hp with hacc | ⟨_, m, hm, ht, _⟩
  · cases hacc
  · simp [Function.comp, rowTitle, hm, ht]

/-- On rows `< N` of a table whose first `N` titles are distinct, reading
the title is injective. -/
theorem rowTitle_inj_on (movies : List Movie) (N : ℕ)
    (hN : N ≤ movies.length)
    (hnd : ((movies.take N).map Movie.title).Nodup) :
    ∀ i < N, ∀ j < N, rowTitle movies i = rowTitle movies j → i = j := by
  intro i hi j hj hij
  have hlen : ((movies.take N).map Movie.title).length = N := by
    simp [List.length_take, min_eq_left hN]
  have hi' : i < ((movies.take N).map Movie.title).length := by rw [hlen]; exact hi
  have hj' : j < ((movies.take N).map Movie.title).length := by rw [hlen]; exact hj
  have hiL : i < movies.length := lt_of_lt_of_le hi hN
  have hjL : j < movies.length := lt_of_lt_of_le hj hN
  have hgi : ((movies.take N).map Movie.title)[i] = rowTitle movies i := by
    rw [List.getElem_map, List.getElem_take]
    simp [rowTitle, List.getElem?_eq_getElem hiL]
  have hgj : ((movies.take N).map Movie.title)[j] = rowTitle movies j := by
    rw [List.getElem_map, List.getElem_take]
    simp [rowTitle, List.getElem?_eq_getElem hjL]
  have : ((movies.take N).map Movie.title)[i] = ((movies.take N).map Movie.title)[j] := by
    rw [hgi, hgj, hij]
  exact (List.Nodup.getElem_inj_iff hnd).mp this

/-- A predicate that holds on at most one member of a duplicate-free list
is counted at most once. -/
theorem countP_le_one_of_unique {l : List ℕ} {p : ℕ → Bool} (hl : l.Nodup)
    (h : ∀ i ∈ l, ∀ j ∈ l, p i = true → p j = true → i = j) :
    l.countP p ≤ 1 := by
  rw [List.countP_eq_length_filter]
  cases hf : l.filter p with
  | nil => simp
  | cons a tl =>
    cases htl : tl with
    | nil => simp
    | cons b tl2 =>
      exfalso
      have hnd : (l.filter p).Nodup := hl.filter p
      rw [hf, htl] at hnd
      have hab : a ≠ b := by
        have h5 := List.pairwise_cons.mp hnd
        exact h5.1 b (List.mem_cons_self _ _)
      have ha : a ∈ l.filter p := by rw [hf]; exact List.mem_cons_self _ _
      have hb : b ∈ l.filter p := by
        rw [hf, htl]
        exact List.mem_cons_of_mem _ (List.mem_cons_self _ _)
      have hpa := List.of_mem_filter ha
      have hpb := List.of_mem_filter hb
      exact hab (h a (List.mem_of_mem_filter ha) b (List.mem_of_mem_filter hb) hpa hpb)

/-- With a single seed title and distinct titles on the candidate rows, at
least `N - 1` of the `N` candidate rows pass the seed filter. -/
theorem countP_passing_ge (movies : List Movie) (s : String) (N : ℕ)
    (hN : N ≤ movies.length)
    (hnd : ((movies.take N).map Movie.title).Nodup) :
    N - 1 ≤ (List.range N).countP (passing movies [s]) := by
  have hsplit := List.length_eq_countP_add_countP (l := List.range N)
    (passing movies [s])
  rw [List.length_range] at hsplit
  have hle : (List.range N).countP
      (fun a => decide ¬(passing movies [s] a = true)) ≤ 1 := by
    apply countP_le_one_of_unique (List.nodup_range N)
    intro i hi j hj hpi hpj
    rw [List.mem_range] at hi hj
    have hiv : i < movies.length := lt_of_lt_of_le hi hN
    have hjv : j < movies.length := lt_of_lt_of_le hj hN
    have hti : rowTitle movies i = s := by
      rcases List.getElem?_eq_some_iff.mpr ⟨hiv, rfl⟩ with hgi
      have := of_decide_eq_true hpi
      simp only [passing, List.getElem?_eq_getElem hiv] at this
      have h2 : ¬(movies[i].title ∉ [s]) := by
        intro hc
        exact this (by simpa using hc)
      have h3 : movies[i].title ∈ [s] := not_not.mp h2
      have h4 : movies[i].title = s := by simpa using h3
      rw [rowTitle_eq movies i movies[i] (List.getElem?_eq_getElem hiv)]
      exact h4
    have htj : rowTitle movies j = s := by
      have := of_decide_eq_true hpj
      simp only [passing, List.getElem?_eq_getElem hjv] at this
      have h2 : ¬(movies[j].title ∉ [s]) := by
        intro hc
        exact this (by simpa using hc)
      have h3 : movies[j].title ∈ [s] := not_not.mp h2
      have h4 : movies[j].title = s := by simpa using h3
      rw [rowTitle_eq movies j movies[j] (List.getElem?_eq_getElem hjv)]
      exact h4
    exact rowTitle_inj_on movies N hN hnd i hi j hj (hti.trans htj.symm)
  omega

/-- The candidate rows failing the single-seed filter are exactly the
rows among the first `N` whose stored title is the seed title. -/
theorem countP_not_passing_eq_filter (movies : List Movie) (s : String) :
    ∀ N, N ≤ movies.length →
    (List.range N).countP (fun j => !(passing movies [s] j))
      = ((movies.take N).filter (fun m => m.title = s)).length := by
  intro N
  induction N with
  | zero => intro _; simp
  | succ n ih =>
    intro h
    have hn : n ≤ movies.length := Nat.le_of_succ_le h
    have hlt : n < movies.length := h
    rw [List.range_succ, List.countP_append, ih hn, List.take_succ,
      List.getElem?_eq_getElem hlt, Option.toList_some, List.filter_append,
      List.length_append]
    congr 1
    have hpass : passing movies [s] n = decide (movies[n].title ∉ [s]) := by
      simp [passing, List.getElem?_eq_getElem hlt]
    by_cases hts : movies[n].title = s
    · simp [List.countP_cons, hpass, hts]
    · simp [List.countP_cons, hpass, hts]

/-- Unfolding of the ranker on the success path. -/
theorem get_hybrid_eq_of (ctx : Ctx) (seeds : List String) (n : ℕ)
    (idxs : List ℕ) (res : List (ℕ × String))
    (hr : resolveSeeds ctx.movies seeds = some idxs) (hne : seeds ≠ [])
    (hp : pickRecs ctx.movies seeds n
      (top_indices (hybrid_scores ctx idxs) (num_movies ctx.ratings)) []
      = some res) :
    get_hybrid_recommendations ctx seeds n = res.map Prod.snd := by
  have hlen := resolveSeeds_length ctx.movies seeds idxs hr
  have hie : idxs.isEmpty = false := by
    cases idxs with
    | nil =>
      exfalso
      apply hne
      cases seeds with
      | nil => rfl
      | cons s ss => simp at hlen
    | cons a l => rfl
  unfold get_hybrid_recommendations hybridBody
  rw [hr]
  simp only [hie, Bool.false_eq_true, if_false, hp]

theorem genreLookup_isSome_iff (movies : List Movie) (t : String) :
    (genreLookup movies t).isSome ↔ ∃ m ∈ movies, m.title = t := by
  simp only [genreLookup, Option.isSome_map']
  rw [List.find?_isSome]
  simp

theorem seedGenres_eq_none_of_absent (movies : List Movie) :
    ∀ (seeds : List String), (∃ t ∈ seeds, ∀ m ∈ movies, m.title ≠ t) →
    seedGenres movies seeds = none := by
  intro seeds
  induction seeds with
  | nil => rintro ⟨t, ht, _⟩; cases ht
  | cons s ss ih =>
    rintro ⟨t, ht, hall⟩
    simp only [seedGenres]
    rcases List.mem_cons.mp ht with rfl | ht
    · have : ¬(genreLookup movies t).isSome := by
        rw [genreLookup_isSome_iff]
        rintro ⟨m, hm, hmt⟩
        exact hall m hm hmt
      cases hg : genreLookup movies t with
      | none => rfl
      | some g => rw [hg] at this; simp at this
    · cases hg : genreLookup movies s with
      | none => rfl
      | some g =>
        simp only []
        rw [ih ⟨t, ht, hall⟩]
        rfl

theorem seedGenres_isSome_of (movies : List Movie) :
    ∀ (seeds : List String), (∀ t ∈ seeds, ∃ m ∈ movies, m.title = t) →
    ∃ gs, seedGenres movies seeds = some gs := by
  intro seeds
  induction seeds with
  | nil => intro _; exact ⟨[], rfl⟩
  | cons s ss ih =>
    intro h
    have hs : (genreLookup movies s).isSome := by
      rw [genreLookup_isSome_iff]
      exact h s (List.mem_cons_self _ _)
    rcases Option.isSome_iff_exists.mp hs with ⟨g, hg⟩
    rcases ih (fun t ht => h t (List.mem_cons_of_mem _ ht)) with ⟨gs, hgs⟩
    refine ⟨g ++ gs, ?_⟩
    simp only [seedGenres, hg, hgs]
    rfl

theorem genreMatches_eq_countP (movies : List Movie) (gs : List String) :
    ∀ (recs : List String), (∀ r ∈ recs, (genreLookup movies r).isSome) →
    genreMatches movies gs recs = some (recs.countP (sharesSeedGenre movies gs)) := by
  intro recs
  induction recs with
  | nil => intro _; rfl
  | cons r rs ih =>
    intro h
    have hr : (genreLookup movies r).isSome := h r (List.mem_cons_self _ _)
    rcases Option.isSome_iff_exists.mp hr with ⟨rg, hrg⟩
    have hrest := ih (fun x hx => h x (List.mem_cons_of_mem _ hx))
    simp only [genreMatches, hrg, hrest, Option.map_some']
    congr 1
    rw [List.countP_cons]
    have : sharesSeedGenre movies gs r = rg.any (fun g => g ∈ gs) := by
      simp [sharesSeedGenre, hrg]
    rw [this]
    cases hany : rg.any (fun g => g ∈ gs) <;> (simp [hany]; try omega)

/-- Every title the ranker emits occurs in the movie table, hence its
genre lookup in the evaluator succeeds. -/
theorem get_hybrid_titles_resolve (ctx : Ctx) (seeds : List String) (n : ℕ) :
    ∀ r ∈ get_hybrid_recommendations ctx seeds n,
      (genreLookup ctx.movies r).isSome := by
  intro r hr
  rcases get_hybrid_mem ctx seeds n r hr with ⟨_, i, _, m, hm, hmt⟩
  rw [genreLookup_isSome_iff]
  exact ⟨m, List.getElem?_mem hm, hmt⟩

/-! ## Concrete evaluations of the ranker -/

theorem exCtx1_top_indices :
    top_indices (hybrid_scores exCtx1 [0]) (num_movies exCtx1.ratings) = [0, 1] := by
  norm_num [top_indices, argsort, num_movies, exRatings1, List.insertionSort,
    List.orderedInsert, ascRel, hybrid_scores, content_scores, exCtx1, exMovies1,
    sample_user_id, labelEncode, labelClasses, List.range_succ]

theorem exCtx1_output : get_hybrid_recommendations exCtx1 ["A"] 5 = ["B"] := by
  have hr : resolveSeeds exCtx1.movies ["A"] = some [0] := by decide
  have hp : pickRecs exCtx1.movies ["A"] 5 [0, 1] [] = some [(1, "B")] := by decide
  simp only [get_hybrid_recommendations, hybridBody, hr, exCtx1_top_indices, hp,
    List.isEmpty_cons, Bool.false_eq_true, if_false, List.map]

theorem exCtx2_top_indices :
    top_indices (hybrid_scores exCtx2 [0]) (num_movies exCtx2.ratings) = [2, 1, 0] := by
  norm_num [top_indices, argsort, num_movies, exRatings2, List.insertionSort,
    List.orderedInsert, ascRel, hybrid_scores, content_scores, exCtx2, exMovies2,
    sample_user_id, labelEncode, labelClasses, List.range_succ]

theorem exCtx2_pick :
    pickRecs exCtx2.movies ["S"] 5
      (top_indices (hybrid_scores exCtx2 [0]) (num_movies exCtx2.ratings)) []
      = some [(2, "B"), (1, "A")] := by
  rw [exCtx2_top_indices]
  decide

theorem exCtx2_output : get_hybrid_recommendations exCtx2 ["S"] 5 = ["B", "A"] := by
  have hr : resolveSeeds exCtx2.movies ["S"] = some [0] := by decide
  simp only [get_hybrid_recommendations, hybridBody, hr, exCtx2_pick,
    List.isEmpty_cons, Bool.false_eq_true, if_false, List.map]

theorem exCtxDup_top_indices :
    top_indices (hybrid_scores exCtxDup [0]) (num_movies exCtxDup.ratings)
      = [5, 4, 3, 2, 1, 0] := by
  norm_num [top_indices, argsort, num_movies, exRatings5, List.insertionSort,
    List.orderedInsert, ascRel, hybrid_scores, content_scores, exCtxDup,
    exMoviesDup, sample_user_id, labelEncode, labelClasses, List.range_succ]

theorem exCtxDup_pick :
    pickRecs exCtxDup.movies ["Toy Story (1995)"] 5
      (top_indices (hybrid_scores exCtxDup [0]) (num_movies exCtxDup.ratings)) []
      = some [(5, "D4"), (4, "D3"), (3, "D2"), (2, "D1"), (1, "D1")] := by
  rw [exCtxDup_top_indices]
  decide

theorem exCtxDup_output :
    get_hybrid_recommendations exCtxDup ["Toy Story (1995)"] 5
      = ["D4", "D3", "D2", "D1", "D1"] := by
  have hr : resolveSeeds exCtxDup.movies ["Toy Story (1995)"] = some [0] := by
    decide
  simp only [get_hybrid_recommendations, hybridBody, hr, exCtxDup_pick,
    List.isEmpty_cons, Bool.false_eq_true, if_false, List.map]

/-! ## Claims -/

/-- C1 (code bug, failing input): with movie table `exMovies1` (movieIds
`1, 2, 3` at rows `0, 1, 2`) and rating set `exRatings1` (only movieIds
`1` and `3` rated), the collaborative candidate at position 1 is encoded
movieId `3` (movie `C`) while the content score at position 1 belongs to
table row 1 (movieId `2`, movie `B`): the two halves of the hybrid sum at
position 1 refer to different movies.  Consequently the ranker emits `B`
(movieId 2), a movie that is not even in the collaborative candidate set,
and can never emit `C` even though `C` is the seed's most similar movie. -/
theorem hybrid_score_misalignment :
    num_movies exRatings1 = 2 ∧
    movie_classes exRatings1 = [1, 3] ∧
    (exMovies1[1]?).map Movie.movieId = some 2 ∧
    2 ∉ movie_classes exRatings1 ∧
    exCtx1.contentSim 0 2 = 1 ∧ exCtx1.contentSim 0 1 = 0 ∧
    get_hybrid_recommendations exCtx1 ["A"] 5 = ["B"] := by
  refine ⟨by decide, by decide, by decide, by decide, ?_, ?_, exCtx1_output⟩
  · norm_num [exCtx1]
  · norm_num [exCtx1]

/-- C2 counterexample: in context `exCtx2` every candidate has the same
hybrid score, yet rows 1 (`"A"`) and 2 (`"B"`) are emitted as
`["B", "A"]` — reverse table order, not the original table order the
claim asserts for ties. -/
theorem equal_scores_reverse_order :
    hybrid_scores exCtx2 [0] 1 = hybrid_scores exCtx2 [0] 2 ∧
    rowTitle exMovies2 1 = "A" ∧ rowTitle exMovies2 2 = "B" ∧
    get_hybrid_recommendations exCtx2 ["S"] 5 = ["B", "A"] := by
  refine ⟨?_, by decide, by decide, exCtx2_output⟩
  norm_num [hybrid_scores, content_scores, exCtx2]

/-- C2 (amended): on the success path the emitted candidates are ordered
by strictly descending hybrid score, and candidates with equal scores
appear in *reverse* table order (argsort is modelled as a stable
ascending sort, which the trailing `[::-1]` reverses). -/
theorem output_sorted_desc (ctx : Ctx) (seeds : List String) (n : ℕ)
    (idxs : List ℕ) (res : List (ℕ × String))
    (hr : resolveSeeds ctx.movies seeds = some idxs) (hne : seeds ≠ [])
    (hp : pickRecs ctx.movies seeds n
      (top_indices (hybrid_scores ctx idxs) (num_movies ctx.ratings)) []
      = some res) :
    get_hybrid_recommendations ctx seeds n = res.map Prod.snd ∧
    (res.map Prod.fst).Pairwise (fun i j =>
      hybrid_scores ctx idxs j < hybrid_scores ctx idxs i ∨
      (hybrid_scores ctx idxs j = hybrid_scores ctx idxs i ∧ j < i)) := by
  constructor
  · exact get_hybrid_eq_of ctx seeds n idxs res hr hne hp
  · have hsub := pickRecs_map_fst_sublist _ _ _ _ _ _ hp
    simp only [List.reverse_nil, List.map_nil, List.nil_append] at hsub
    exact List.Pairwise.sublist hsub (top_indices_pairwise _ _)

/-- Witness for `output_sorted_desc` at `exCtx2`. -/
theorem output_sorted_desc_witness :
    get_hybrid_recommendations exCtx2 ["S"] 5 = [(2, "B"), (1, "A")].map Prod.snd ∧
    ([(2, "B"), (1, "A")].map Prod.fst).Pairwise (fun i j =>
      hybrid_scores exCtx2 [0] j < hybrid_scores exCtx2 [0] i ∨
      (hybrid_scores exCtx2 [0] j = hybrid_scores exCtx2 [0] i ∧ j < i)) :=
  output_sorted_desc exCtx2 ["S"] 5 [0] [(2, "B"), (1, "A")]
    (by decide) (by decide) exCtx2_pick

/-- C3: a seed list containing a title absent from the movie table makes
the ranker return `[]` by a normal `return` inside the `try:` block — no
exception is raised, none is caught. -/
theorem absent_seed_returns_empty (ctx : Ctx) (seeds : List String) (n : ℕ)
    (h : ∃ t ∈ seeds, ∀ m ∈ ctx.movies, m.title ≠ t) :
    hybridBody ctx seeds n = .ok [] ∧
    get_hybrid_recommendations ctx seeds n = [] := by
  have hr : resolveSeeds ctx.movies seeds = none :=
    (resolveSeeds_eq_none_iff ctx.movies seeds).mpr h
  constructor
  · unfold hybridBody
    rw [hr]
  · unfold get_hybrid_recommendations hybridBody
    rw [hr]

/-- Witness for `absent_seed_returns_empty`: the title `"Z"` is absent
from `exMovies1`. -/
theorem absent_seed_returns_empty_witness :
    hybridBody exCtx1 ["Z"] 5 = .ok [] ∧
    get_hybrid_recommendations exCtx1 ["Z"] 5 = [] :=
  absent_seed_returns_empty exCtx1 ["Z"] 5 ⟨"Z", by decide, by decide⟩

/-- C4: for every context, seed list and limit `n`, no emitted title is a
seed title, and at most `n` titles are emitted. -/
theorem no_seed_title_at_most_n (ctx : Ctx) (seeds : List String) (n : ℕ) :
    (∀ t ∈ get_hybrid_recommendations ctx seeds n, t ∉ seeds) ∧
    (get_hybrid_recommendations ctx seeds n).length ≤ n := by
  constructor
  · intro t ht
    exact (get_hybrid_mem ctx seeds n t ht).1
  · rcases get_hybrid_cases ctx seeds n with h | ⟨idxs, res, hr, hp, hout⟩
    · rw [h]; simp
    · rw [hout, List.length_map]
      have h2 := pickRecs_length_le _ _ _ _ _ _ hp
      simpa using h2

/-- C8: whenever the body of the `try:` block fails, the `except` handler
returns `[]`; no exception escapes `get_hybrid_recommendations`. -/
theorem catch_all_returns_empty (ctx : Ctx) (seeds : List String) (n : ℕ)
    (e : String) (h : hybridBody ctx seeds n = .error e) :
    get_hybrid_recommendations ctx seeds n = [] := by
  unfold get_hybrid_recommendations
  rw [h]

/-- Witness for `catch_all_returns_empty`: the empty seed list makes the
body raise (`np.mean` of an empty list followed by a slice). -/
theorem catch_all_returns_empty_witness :
    hybridBody exCtx1 [] 5 = .error "IndexError: too many indices for array" ∧
    get_hybrid_recommendations exCtx1 [] 5 = [] := by
  have h : hybridBody exCtx1 [] 5
      = .error "IndexError: too many indices for array" := rfl
  exact ⟨h, catch_all_returns_empty exCtx1 [] 5
    "IndexError: too many indices for array" h⟩

/-- C9: when the seeds resolve, every emitted title is read from a movie
row whose index is strictly below `num_movies`, the number of distinct
movies in the rating set; rows at or beyond that index are never
emitted. -/
theorem recommended_rows_below_num_movies (ctx : Ctx) (seeds : List String)
    (n : ℕ) (idxs : List ℕ)
    (_hr : resolveSeeds ctx.movies seeds = some idxs) :
    ∀ t ∈ get_hybrid_recommendations ctx seeds n,
      ∃ i, i < num_movies ctx.ratings ∧
        ∃ m, ctx.movies[i]? = some m ∧ m.title = t := by
  intro t ht
  exact (get_hybrid_mem ctx seeds n t ht).2

/-- Witness for `recommended_rows_below_num_movies` at `exCtx1`. -/
theorem recommended_rows_below_num_movies_witness :
    get_hybrid_recommendations exCtx1 ["A"] 5 = ["B"] ∧
    ∃ i, i < num_movies exCtx1.ratings ∧
      ∃ m, exCtx1.movies[i]? = some m ∧ m.title = "B" := by
  refine ⟨exCtx1_output, ?_⟩
  exact recommended_rows_below_num_movies exCtx1 ["A"] 5 [0] (by decide) "B"
    (by rw [exCtx1_output]; exact List.mem_singleton.mpr rfl)

/-- C5 counterexample: the selection loop never compares a candidate
title against the titles already emitted, only against the seed list, so
a title duplicated across table rows (as MovieLens titles are) can be
emitted twice: with seed ["Toy Story (1995)"] and N = 5 over `exMoviesDup`
the output has five entries but repeats `"D1"`. -/
theorem toy_story_duplicate_title_output :
    get_hybrid_recommendations exCtxDup ["Toy Story (1995)"] 5
      = ["D4", "D3", "D2", "D1", "D1"] ∧
    ¬ (get_hybrid_recommendations exCtxDup ["Toy Story (1995)"] 5).Nodup := by
  refine ⟨exCtxDup_output, ?_⟩
  rw [exCtxDup_output]
  decide

/-- C5 (amended, under hypotheses on the loaded data, which is downloaded
at run time): if "Toy Story (1995)" occurs in the table — on at most one
row, as in MovieLens — there are at least 6 collaborative candidates and
all candidate rows exist, then the ranker returns a list of exactly 5
titles, none equal to "Toy Story (1995)", all drawn from the table.
Pairwise distinctness of the output is *not* guaranteed by the code
(see `toy_story_duplicate_title_output`). -/
theorem toy_story_scenario (ctx : Ctx)
    (hfound : ∃ m ∈ ctx.movies, m.title = "Toy Story (1995)")
    (hle : num_movies ctx.ratings ≤ ctx.movies.length)
    (h6 : 6 ≤ num_movies ctx.ratings)
    (hone : (ctx.movies.filter (fun m => m.title = "Toy Story (1995)")).length ≤ 1) :
    (get_hybrid_recommendations ctx ["Toy Story (1995)"] 5).length = 5 ∧
    "Toy Story (1995)" ∉ get_hybrid_recommendations ctx ["Toy Story (1995)"] 5 ∧
    ∀ t ∈ get_hybrid_recommendations ctx ["Toy Story (1995)"] 5,
      ∃ m ∈ ctx.movies, m.title = t := by
  obtain ⟨m0, hm0, hm0t⟩ := hfound
  cases hf : ctx.movies.findIdx? (fun m => m.title = "Toy Story (1995)") with
  | none =>
    exfalso
    have h2 := List.findIdx?_eq_none_iff.mp hf m0 hm0
    simp [hm0t] at h2
  | some i0 =>
    have hr : resolveSeeds ctx.movies ["Toy Story (1995)"] = some [i0] := by
      simp [resolveSeeds, hf]
    have hval : ∀ i ∈ top_indices (hybrid_scores ctx [i0]) (num_movies ctx.ratings),
        (ctx.movies[i]?).isSome := by
      intro i hi
      have hiN := (mem_top_indices _ _ _).mp hi
      have hiL : i < ctx.movies.length := lt_of_lt_of_le hiN hle
      rw [List.getElem?_eq_getElem hiL]; rfl
    obtain ⟨res, hp⟩ : ∃ res, pickRecs ctx.movies ["Toy Story (1995)"] 5
        (top_indices (hybrid_scores ctx [i0]) (num_movies ctx.ratings)) []
        = some res := by
      cases hp : pickRecs ctx.movies ["Toy Story (1995)"] 5
          (top_indices (hybrid_scores ctx [i0]) (num_movies ctx.ratings)) [] with
      | none =>
        exfalso
        rcases (pickRecs_eq_none_iff _ _ _ _ _).mp hp with ⟨i, hi, hnone⟩
        have h2 := hval i hi
        rw [hnone] at h2
        cases h2
      | some res => exact ⟨res, rfl⟩
    have hout : get_hybrid_recommendations ctx ["Toy Story (1995)"] 5
        = res.map Prod.snd :=
      get_hybrid_eq_of ctx _ 5 [i0] res hr (by simp) hp
    -- at most one candidate row fails the seed filter
    have hfe := countP_not_passing_eq_filter ctx.movies "Toy Story (1995)"
      (num_movies ctx.ratings) hle
    have hfle : (((ctx.movies.take (num_movies ctx.ratings)).filter
        (fun m => m.title = "Toy Story (1995)")).length)
        ≤ ((ctx.movies.filter (fun m => m.title = "Toy Story (1995)")).length) :=
      ((List.take_sublist (num_movies ctx.ratings) ctx.movies).filter _).length_le
    have hone2 : (List.range (num_movies ctx.ratings)).countP
        (fun j => !(passing ctx.movies ["Toy Story (1995)"] j)) ≤ 1 := by
      rw [hfe]
      exact le_trans hfle hone
    have hsplit := List.length_eq_countP_add_countP
      (passing ctx.movies ["Toy Story (1995)"])
      (List.range (num_movies ctx.ratings))
    have hcong : (List.range (num_movies ctx.ratings)).countP
        (fun a => decide ¬(passing ctx.movies ["Toy Story (1995)"] a = true))
        = (List.range (num_movies ctx.ratings)).countP
          (fun j => !(passing ctx.movies ["Toy Story (1995)"] j)) := by
      apply List.countP_congr
      intro a _
      cases h2 : passing ctx.movies ["Toy Story (1995)"] a <;> simp [h2]
    rw [List.length_range, hcong] at hsplit
    have hcntL : (top_indices (hybrid_scores ctx [i0]) (num_movies ctx.ratings)).countP
        (passing ctx.movies ["Toy Story (1995)"])
        = (List.range (num_movies ctx.ratings)).countP
          (passing ctx.movies ["Toy Story (1995)"]) :=
      (top_indices_perm _ _).countP_eq _
    have hlen := pickRecs_length_eq _ _ _ _ _ _ hval (by simp) hp
    have hlen5 : res.length = 5 := by
      rw [hlen, List.length_nil, Nat.zero_add, hcntL]
      omega
    refine ⟨by rw [hout, List.length_map]; exact hlen5, ?_, ?_⟩
    · intro hs
      have h2 := (get_hybrid_mem ctx _ 5 _ hs).1
      simp at h2
    · intro t ht
      rcases (get_hybrid_mem ctx _ 5 t ht).2 with ⟨i, _, m, hm, hmt⟩
      exact ⟨m, List.getElem?_mem hm, hmt⟩

/-- Witness for `toy_story_scenario` at the concrete context `exCtx5`. -/
theorem toy_story_scenario_witness :
    (get_hybrid_recommendations exCtx5 ["Toy Story (1995)"] 5).length = 5 ∧
    "Toy Story (1995)" ∉ get_hybrid_recommendations exCtx5 ["Toy Story (1995)"] 5 ∧
    ∀ t ∈ get_hybrid_recommendations exCtx5 ["Toy Story (1995)"] 5,
      ∃ m ∈ exCtx5.movies, m.title = t :=
  toy_story_scenario exCtx5 ⟨⟨1, "Toy Story (1995)", "X"⟩, by decide, rfl⟩
    (by decide) (by decide) (by decide)

/-- C6: when every seed title resolves, the evaluator returns normally;
the genre-match rate is 0 for an empty recommendation list and otherwise
equals 100 times the fraction of recommended movies sharing at least one
genre tag with the union of the seed genres, hence always lies in
[0, 100]. -/
theorem evaluator_genre_match_rate (ctx : Ctx) (seeds : List String) (n : ℕ)
    (hseeds : ∀ t ∈ seeds, ∃ m ∈ ctx.movies, m.title = t) :
    ∃ gs rate,
      seedGenres ctx.movies seeds = some gs ∧
      evaluate_recommendations ctx seeds n =
        .ok (get_hybrid_recommendations ctx seeds n, rate,
          (get_hybrid_recommendations ctx seeds n).length) ∧
      (get_hybrid_recommendations ctx seeds n = [] → rate = 0) ∧
      0 ≤ rate ∧ rate ≤ 100 ∧
      (get_hybrid_recommendations ctx seeds n ≠ [] →
        rate = (((get_hybrid_recommendations ctx seeds n).countP
            (sharesSeedGenre ctx.movies gs) : ℚ)
          / ((get_hybrid_recommendations ctx seeds n).length : ℚ)) * 100) := by
  obtain ⟨gs, hgs⟩ := seedGenres_isSome_of ctx.movies seeds hseeds
  have hmatches := genreMatches_eq_countP ctx.movies gs
    (get_hybrid_recommendations ctx seeds n)
    (get_hybrid_titles_resolve ctx seeds n)
  refine ⟨gs,
    if (get_hybrid_recommendations ctx seeds n).isEmpty then 0
    else (((get_hybrid_recommendations ctx seeds n).countP
        (sharesSeedGenre ctx.movies gs) : ℚ)
      / ((get_hybrid_recommendations ctx seeds n).length : ℚ)) * 100,
    hgs, ?_, ?_, ?_, ?_, ?_⟩
  · simp only [evaluate_recommendations, hgs, hmatches]
  · intro hempty
    simp [hempty]
  · by_cases he : (get_hybrid_recommendations ctx seeds n).isEmpty
    · simp [he]
    · rw [if_neg he]
      have hlen : 0 < ((get_hybrid_recommendations ctx seeds n).length : ℚ) := by
        have : get_hybrid_recommendations ctx seeds n ≠ [] := by
          intro hc
          rw [hc] at he
          exact he rfl
        have hpos : 0 < (get_hybrid_recommendations ctx seeds n).length :=
          List.length_pos.mpr this
        exact_mod_cast hpos
      positivity
  · by_cases he : (get_hybrid_recommendations ctx seeds n).isEmpty
    · simp [he]
    · rw [if_neg he]
      have hne : get_hybrid_recommendations ctx seeds n ≠ [] := by
        intro hc
        rw [hc] at he
        exact he rfl
      have hpos : 0 < (get_hybrid_recommendations ctx seeds n).length :=
        List.length_pos.mpr hne
      have hposq : 0 < ((get_hybrid_recommendations ctx seeds n).length : ℚ) := by
        exact_mod_cast hpos
      have hkle : ((get_hybrid_recommendations ctx seeds n).countP
          (sharesSeedGenre ctx.movies gs) : ℚ)
          ≤ ((get_hybrid_recommendations ctx seeds n).length : ℚ) := by
        exact_mod_cast List.countP_le_length _
      have hdiv : ((get_hybrid_recommendations ctx seeds n).countP
          (sharesSeedGenre ctx.movies gs) : ℚ)
          / ((get_hybrid_recommendations ctx seeds n).length : ℚ) ≤ 1 :=
        (div_le_one hposq).mpr hkle
      calc _ ≤ (1 : ℚ) * 100 := by
            apply mul_le_mul_of_nonneg_right hdiv
            norm_num
        _ = 100 := one_mul 100
  · intro hne
    rw [if_neg (by simpa [List.isEmpty_iff] using hne)]

/-- Witness for `evaluator_genre_match_rate` at `exCtx1` with seed `"A"`. -/
theorem evaluator_genre_match_rate_witness :
    ∃ gs rate,
      seedGenres exCtx1.movies ["A"] = some gs ∧
      evaluate_recommendations exCtx1 ["A"] 5 =
        .ok (get_hybrid_recommendations exCtx1 ["A"] 5, rate,
          (get_hybrid_recommendations exCtx1 ["A"] 5).length) ∧
      (get_hybrid_recommendations exCtx1 ["A"] 5 = [] → rate = 0) ∧
      0 ≤ rate ∧ rate ≤ 100 ∧
      (get_hybrid_recommendations exCtx1 ["A"] 5 ≠ [] →
        rate = (((get_hybrid_recommendations exCtx1 ["A"] 5).countP
            (sharesSeedGenre exCtx1.movies gs) : ℚ)
          / ((get_hybrid_recommendations exCtx1 ["A"] 5).length : ℚ)) * 100) :=
  evaluator_genre_match_rate exCtx1 ["A"] 5
    (by intro t ht; simp only [List.mem_singleton] at ht; subst ht;
        exact ⟨⟨1, "A", "X"⟩, by decide, rfl⟩)

/-- C10: a seed list containing a title absent from the table makes the
evaluator's seed-genre lookup fail with an uncaught exception, while the
ranker it first calls returns `[]` without raising. -/
theorem evaluator_raises_on_absent_seed (ctx : Ctx) (seeds : List String)
    (n : ℕ) (h : ∃ t ∈ seeds, ∀ m ∈ ctx.movies, m.title ≠ t) :
    (∃ e, evaluate_recommendations ctx seeds n = .error e) ∧
    get_hybrid_recommendations ctx seeds n = [] := by
  have hsg := seedGenres_eq_none_of_absent ctx.movies seeds h
  have hr : resolveSeeds ctx.movies seeds = none :=
    (resolveSeeds_eq_none_iff ctx.movies seeds).mpr h
  constructor
  · refine ⟨"IndexError: seed title not found", ?_⟩
    simp only [evaluate_recommendations, hsg]
  · unfold get_hybrid_recommendations hybridBody
    rw [hr]

/-- Witness for `evaluator_raises_on_absent_seed`: `"Z"` is not a title
of `exMovies1`. -/
theorem evaluator_raises_on_absent_seed_witness :
    (∃ e, evaluate_recommendations exCtx1 ["Z"] 5 = .error e) ∧
    get_hybrid_recommendations exCtx1 ["Z"] 5 = [] :=
  evaluator_raises_on_absent_seed exCtx1 ["Z"] 5 ⟨"Z", by decide, by decide⟩

/-! ## Properties of the similarity-matrix construction -/

theorem docFreq_le_length (movies : List Movie) (t : String) :
    docFreq movies t ≤ movies.length :=
  List.length_filter_le _ _

theorem one_le_idf (movies : List Movie) (t : String) : 1 ≤ idf movies t := by
  have h1 : (0 : ℝ) < 1 + (docFreq movies t : ℝ) := by positivity
  have h2 : (1 + (docFreq movies t : ℝ)) ≤ (1 + (movies.length : ℝ)) := by
    have h3 := docFreq_le_length movies t
    have h4 : (docFreq movies t : ℝ) ≤ (movies.length : ℝ) := by exact_mod_cast h3
    linarith
  have hge : (1 : ℝ) ≤ (1 + (movies.length : ℝ)) / (1 + (docFreq movies t : ℝ)) :=
    (one_le_div h1).mpr h2
  have hlog := Real.log_nonneg hge
  unfold idf
  linarith

theorem idf_pos (movies : List Movie) (t : String) : 0 < idf movies t :=
  lt_of_lt_of_le one_pos (one_le_idf movies t)

theorem tfidfRaw_nonneg (movies : List Movie) (i : ℕ) (t : String) :
    0 ≤ tfidfRaw movies i t :=
  mul_nonneg (Nat.cast_nonneg _) (le_of_lt (idf_pos movies t))

theorem list_sum_div (l : List String) (f : String → ℝ) (c : ℝ) :
    (l.map (fun t => f t / c)).sum = (l.map f).sum / c := by
  induction l with
  | nil => simp
  | cons a tl ih => simp [ih, add_div]

theorem list_sum_nonneg_of (l : List String) (f : String → ℝ)
    (h : ∀ t ∈ l, 0 ≤ f t) : 0 ≤ (l.map f).sum := by
  apply List.sum_nonneg
  intro x hx
  rcases List.mem_map.mp hx with ⟨t, ht, rfl⟩
  exact h t ht

theorem list_sum_pos_of (f : String → ℝ) :
    ∀ l : List String, (∀ t ∈ l, 0 ≤ f t) → ∀ t0 ∈ l, 0 < f t0 →
    0 < (l.map f).sum := by
  intro l
  induction l with
  | nil => intro _ t0 ht0; cases ht0
  | cons a tl ih =>
    intro h t0 ht0 hpos
    simp only [List.map_cons, List.sum_cons]
    rcases List.mem_cons.mp ht0 with rfl | ht0
    · have hrest : 0 ≤ (tl.map f).sum :=
        list_sum_nonneg_of tl f (fun t ht => h t (List.mem_cons_of_mem _ ht))
      linarith
    · have h0 : 0 ≤ f a := h a (List.mem_cons_self _ _)
      have hrest := ih (fun t ht => h t (List.mem_cons_of_mem _ ht)) t0 ht0 hpos
      linarith

/-- Cauchy–Schwarz for sums over a duplicate-free list. -/
theorem list_inner_mul_le (l : List String) (hl : l.Nodup) (f g : String → ℝ) :
    ((l.map (fun t => f t * g t)).sum) ^ 2 ≤
      ((l.map (fun t => f t * f t)).sum) * ((l.map (fun t => g t * g t)).sum) := by
  rw [← List.sum_toFinset _ hl, ← List.sum_toFinset _ hl, ← List.sum_toFinset _ hl]
  have h := Finset.sum_mul_sq_le_sq_mul_sq l.toFinset f g
  simp only [← pow_two]
  exact h

theorem vocab_nodup (movies : List Movie) : (vocab movies).Nodup :=
  List.nodup_dedup _

theorem rawDot_nonneg (movies : List Movie) (i j : ℕ) : 0 ≤ rawDot movies i j :=
  list_sum_nonneg_of _ _
    (fun t _ => mul_nonneg (tfidfRaw_nonneg movies i t) (tfidfRaw_nonneg movies j t))

theorem rawDot_comm (movies : List Movie) (i j : ℕ) :
    rawDot movies i j = rawDot movies j i := by
  unfold rawDot
  congr 1
  apply List.map_congr_left
  intro t _
  exact mul_comm _ _

/-- Double normalisation collapses: the inner product of the normalised
rows is the raw inner product divided by the two raw norms. -/
theorem simDot_eq (movies : List Movie) (i j : ℕ) :
    simDot movies i j = rawDot movies i j /
      (Real.sqrt (rawDot movies i i) * Real.sqrt (rawDot movies j j)) := by
  unfold simDot tfidf_matrix
  have hpt : ∀ t ∈ vocab movies,
      tfidfRaw movies i t / Real.sqrt (rawDot movies i i) *
        (tfidfRaw movies j t / Real.sqrt (rawDot movies j j))
      = (fun t => tfidfRaw movies i t * tfidfRaw movies j t) t /
          (Real.sqrt (rawDot movies i i) * Real.sqrt (rawDot movies j j)) := by
    intro t _
    rw [div_mul_div_comm]
  rw [List.map_congr_left hpt, list_sum_div]
  rfl

theorem simDot_nonneg (movies : List Movie) (i j : ℕ) : 0 ≤ simDot movies i j := by
  rw [simDot_eq]
  exact div_nonneg (rawDot_nonneg movies i j)
    (mul_nonneg (Real.sqrt_nonneg _) (Real.sqrt_nonneg _))

theorem simDot_comm (movies : List Movie) (i j : ℕ) :
    simDot movies i j = simDot movies j i := by
  rw [simDot_eq, simDot_eq, rawDot_comm movies i j, mul_comm]

theorem simDot_CS (movies : List Movie) (i j : ℕ) :
    simDot movies i j ^ 2 ≤ simDot movies i i * simDot movies j j :=
  list_inner_mul_le (vocab movies) (vocab_nodup movies)
    (tfidf_matrix movies i) (tfidf_matrix movies j)

theorem simDot_le_sqrt (movies : List Movie) (i j : ℕ) :
    simDot movies i j ≤
      Real.sqrt (simDot movies i i) * Real.sqrt (simDot movies j j) := by
  have hij := simDot_nonneg movies i j
  have hD : 0 ≤ Real.sqrt (simDot movies i i) * Real.sqrt (simDot movies j j) :=
    mul_nonneg (Real.sqrt_nonneg _) (Real.sqrt_nonneg _)
  have hsq : (Real.sqrt (simDot movies i i) * Real.sqrt (simDot movies j j)) ^ 2
      = simDot movies i i * simDot movies j j := by
    rw [mul_pow, Real.sq_sqrt (simDot_nonneg movies i i),
      Real.sq_sqrt (simDot_nonneg movies j j)]
  calc simDot movies i j = Real.sqrt (simDot movies i j ^ 2) :=
        (Real.sqrt_sq hij).symm
    _ ≤ Real.sqrt (simDot movies i i * simDot movies j j) :=
        Real.sqrt_le_sqrt (simDot_CS movies i j)
    _ = Real.sqrt ((Real.sqrt (simDot movies i i)
          * Real.sqrt (simDot movies j j)) ^ 2) := by rw [hsq]
    _ = _ := Real.sqrt_sq hD

theorem rawDot_diag_pos (movies : List Movie) (i : ℕ) (hi : i < movies.length)
    (htok : movieTokens movies[i] ≠ []) : 0 < rawDot movies i i := by
  obtain ⟨t0, ht0⟩ : ∃ t0, t0 ∈ movieTokens movies[i] := by
    cases h : movieTokens movies[i] with
    | nil => exact absurd h htok
    | cons a l => exact ⟨a, List.mem_cons_self _ _⟩
  have ht0v : t0 ∈ vocab movies := by
    unfold vocab
    rw [List.mem_dedup, List.mem_flatten]
    exact ⟨movieTokens movies[i],
      List.mem_map.mpr ⟨movies[i], List.getElem_mem hi, rfl⟩, ht0⟩
  apply list_sum_pos_of _ _
    (fun t _ => mul_nonneg (tfidfRaw_nonneg movies i t) (tfidfRaw_nonneg movies i t))
    t0 ht0v
  have hcount : 0 < tfCount movies i t0 := by
    unfold tfCount
    rw [List.getElem?_eq_getElem hi]
    exact List.count_pos_iff.mpr ht0
  have hraw : 0 < tfidfRaw movies i t0 :=
    mul_pos (by exact_mod_cast hcount) (idf_pos movies t0)
  exact mul_pos hraw hraw

theorem simDot_diag_eq_one (movies : List Movie) (i : ℕ)
    (h : rawDot movies i i ≠ 0) : simDot movies i i = 1 := by
  rw [simDot_eq, Real.mul_self_sqrt (rawDot_nonneg movies i i)]
  exact div_self h

theorem list_sum_map_zero (l : List String) :
    (l.map (fun _ => (0 : ℝ))).sum = 0 := by
  induction l with
  | nil => rfl
  | cons a tl ih => simp [ih]

/-- `fit_transform` on a corpus in which every text blob tokenises to
nothing raises `ValueError: empty vocabulary` — the program builds no
matrix at all for such a table. -/
theorem empty_vocabulary_raises :
    tfidf_fit_transform exMoviesStop = .error "ValueError: empty vocabulary" := by
  have hv : vocab exMoviesStop = [] := by decide
  simp [tfidf_fit_transform, hv]

/-- C7 counterexample: on the mixed table `exMoviesMixed` the vocabulary
is non-empty, so `fit_transform` succeeds and the similarity matrix is
actually built — yet row 1 (text blob `"no It"`, all stop words) has a
zero TF-IDF row, and its diagonal entry is 0, not 1. -/
theorem content_sim_diag_not_one_on_mixed_table :
    exMoviesMixed ≠ [] ∧
    content_sim_cell exMoviesMixed = .ok (content_sim_matrix exMoviesMixed) ∧
    content_sim_matrix exMoviesMixed 1 1 = 0 ∧
    content_sim_matrix exMoviesMixed 1 1 ≠ 1 := by
  have hv : ¬(vocab exMoviesMixed = []) := by decide
  have hfit : content_sim_cell exMoviesMixed
      = .ok (content_sim_matrix exMoviesMixed) := by
    simp [content_sim_cell, tfidf_fit_transform, hv]
  have h1 : exMoviesMixed[1]? = some ⟨2, "It", "no"⟩ := rfl
  have htok : movieTokens ⟨2, "It", "no"⟩ = [] := by decide
  have hcount : ∀ t, tfCount exMoviesMixed 1 t = 0 := by
    intro t
    simp [tfCount, h1, htok]
  have hraw : ∀ t, tfidfRaw exMoviesMixed 1 t = 0 := by
    intro t
    simp [tfidfRaw, hcount t]
  have hm : ∀ t, tfidf_matrix exMoviesMixed 1 t = 0 := by
    intro t
    simp [tfidf_matrix, hraw t]
  have hsdot : simDot exMoviesMixed 1 1 = 0 := by
    unfold simDot
    simp only [hm, mul_zero]
    exact list_sum_map_zero _
  have hzero : content_sim_matrix exMoviesMixed 1 1 = 0 := by
    unfold content_sim_matrix
    rw [hsdot, zero_div]
  refine ⟨by decide, hfit, hzero, ?_⟩
  rw [hzero]
  norm_num

/-- C7 (amended): whenever the notebook's similarity cell runs without
raising (`fit_transform` succeeds, i.e. some blob yields a token — on an
all-stop-word corpus it raises `ValueError: empty vocabulary` instead),
the matrix it builds over a non-empty movie table is symmetric with all
entries in [0, 1], and its diagonal entry is 1 at every row whose own
text blob yields at least one token; a row tokenising to nothing inside a
tokenful corpus gets diagonal entry 0 instead. -/
theorem content_sim_matrix_spec (movies : List Movie) (_hne : movies ≠ [])
    (M : ℕ → ℕ → ℝ) (hfit : content_sim_cell movies = .ok M) :
    (∀ i j, M i j = M j i) ∧
    (∀ i j, 0 ≤ M i j ∧ M i j ≤ 1) ∧
    (∀ i, ∀ hi : i < movies.length, movieTokens movies[i] ≠ [] →
      M i i = 1) := by
  have hM : M = content_sim_matrix movies := by
    unfold content_sim_cell tfidf_fit_transform at hfit
    by_cases hv : vocab movies = []
    · rw [if_pos hv] at hfit
      simp at hfit
    · rw [if_neg hv] at hfit
      simp only [Except.ok.injEq] at hfit
      exact hfit.symm
  subst hM
  refine ⟨?_, ?_, ?_⟩
  · intro i j
    unfold content_sim_matrix
    rw [simDot_comm movies i j, mul_comm]
  · intro i j
    have hD : 0 ≤ Real.sqrt (simDot movies i i) * Real.sqrt (simDot movies j j) :=
      mul_nonneg (Real.sqrt_nonneg _) (Real.sqrt_nonneg _)
    constructor
    · exact div_nonneg (simDot_nonneg movies i j) hD
    · unfold content_sim_matrix
      rcases eq_or_lt_of_le hD with heq | hpos
      · rw [← heq, div_zero]
        norm_num
      · exact (div_le_one hpos).mpr (simDot_le_sqrt movies i j)
  · intro i hi htok
    have hpos := rawDot_diag_pos movies i hi htok
    have h1 := simDot_diag_eq_one movies i (ne_of_gt hpos)
    unfold content_sim_matrix
    rw [h1, Real.sqrt_one, mul_one, div_one]

/-- Witness for `content_sim_matrix_spec`: on the one-movie table with
blob `"Adventure Toy Story (1995)"` the fit succeeds (four tokens) and
the diagonal entry is 1. -/
theorem content_sim_matrix_spec_witness :
    content_sim_cell exMoviesToy = .ok (content_sim_matrix exMoviesToy) ∧
    content_sim_matrix exMoviesToy 0 0 = 1 := by
  have hv : ¬(vocab exMoviesToy = []) := by decide
  have hfit : content_sim_cell exMoviesToy
      = .ok (content_sim_matrix exMoviesToy) := by
    simp [content_sim_cell, tfidf_fit_transform, hv]
  exact ⟨hfit, (content_sim_matrix_spec exMoviesToy (by decide) _ hfit).2.2
    0 (by decide) (by decide)⟩

end MovieRec
